import Mathlib

/-! formsg-golang-sdk: webhook authentication and submission decryption

A shallow embedding of `webhooks.go` (`parseHeader`, `Authenticate`) and of
`crypto/crypto.go` (`Decrypt`, `DownloadAttachment`).

Modelling conventions

* A Go `string` is the list of its characters.  The program only ever looks for
  the ASCII separators `,` `;` `:` and the ASCII prefixes `t=` `s=` `f=` `v1=`,
  so slicing by bytes and slicing by characters agree.
* A Go `[]byte` is a list of bytes.
* A Go `error` is a value of `GoError`; `nil` is `none`.
* A function that can abort with a run-time panic returns an `Outcome`.
* Library routines (`base64.StdEncoding.DecodeString`, `ed25519.Verify`,
  `box.Open`, `json.Unmarshal`, `http.Get`), the process environment and the
  clock are explicit parameters.
-/

namespace FormSG

/-! ## Basic types -/

abbrev GoString := List Char

abbrev Bytes := List UInt8

/-- Go error values.  `errorf` is an error built by `fmt.Errorf` / `errors.New`
with the given text; `lib` is an error produced by a library routine. -/
inductive GoError where
  | errorf (msg : String)
  | lib (name : String)
deriving DecidableEq, Repr

/-- Result of a call that either returns or aborts with a run-time panic. -/
inductive Outcome (α : Type) where
  | ret (a : α)
  | crash (msg : String)
deriving DecidableEq, Repr

/-! ## package strings -/

/-- Go `strings.Split(s, sep)` for a separator of one byte: the pieces of `s`
between the occurrences of `sep`; a string without `sep` gives the one-element
slice `[s]`. -/
def split (sep : Char) : GoString → List GoString
  | [] => [[]]
  | c :: cs =>
    if c = sep then [] :: split sep cs
    else
      match split sep cs with
      | [] => [[c]]
      | p :: ps => (c :: p) :: ps

/-- Go `strings.HasPrefix(s, pre)`. -/
def HasPrefix (s pre : GoString) : Bool := pre.isPrefixOf s

/-- Go `strings.Join(parts, sep)` for a separator of one byte. -/
def join (sep : Char) : List GoString → GoString
  | [] => []
  | [p] => p
  | p :: q :: rest => p ++ sep :: join sep (q :: rest)

/-! ## webhooks.go -/

/-- The header (X-FormSG-Signature) of the request. -/
structure Header where
  t : GoString
  s : GoString
  f : GoString
  v1 : GoString
deriving DecidableEq, Repr

/-- The zero value `Header{}`. -/
def Header.zero : Header := ⟨[], [], [], []⟩

def errHeaderFormat : GoError := .errorf "header format is invalid"

/-- The `for _, s := range splits` loop of `parseHeader`, started on the record
`h`; an unrecognised component returns `Header{}` and an error at once. -/
def parseFields : List GoString → Header → Header × Option GoError
  | [], h => (h, none)
  | s :: rest, h =>
    if HasPrefix s "t=".toList then parseFields rest { h with t := s.drop 2 }
    else if HasPrefix s "s=".toList then parseFields rest { h with s := s.drop 2 }
    else if HasPrefix s "f=".toList then parseFields rest { h with f := s.drop 2 }
    else if HasPrefix s "v1=".toList then parseFields rest { h with v1 := s.drop 3 }
    else (Header.zero, some errHeaderFormat)

/-- Go `parseHeader`. -/
def parseHeader (header : GoString) : Header × Option GoError :=
  let splits := split ',' header
  if splits.length ≠ 4 then (Header.zero, some errHeaderFormat)
  else parseFields splits Header.zero

/-! ## package strconv -/

def errNumInvalid : GoError := .lib "strconv.ErrSyntax"

def errNumRange : GoError := .lib "strconv.ErrRange"

def maxUint64 : Nat := 2 ^ 64 - 1

/-- The digit loop of Go `strconv.ParseUint(s, 10, 64)`: `n` is the value read so
far.  A byte that is not a decimal digit is an invalid-number error (with base 10
given explicitly no underscore is allowed); leaving the `uint64` range is a
range error with value `maxUint64`. -/
def parseUintLoop : GoString → Nat → Nat × Option GoError
  | [], n => (n, none)
  | c :: cs, n =>
    if '0' ≤ c ∧ c ≤ '9' then
      let d := c.toNat - '0'.toNat
      if n ≥ maxUint64 / 10 + 1 then (maxUint64, some errNumRange)
      else
        let n1 := n * 10 + d
        if n1 > maxUint64 then (maxUint64, some errNumRange)
        else parseUintLoop cs n1
    else (0, some errNumInvalid)

/-- Go `strconv.ParseUint(s, 10, 64)`. -/
def ParseUint (s : GoString) : Nat × Option GoError :=
  if s = [] then (0, some errNumInvalid) else parseUintLoop s 0

/-- Go `strconv.ParseInt(s, 10, 64)`: an optional sign, then `ParseUint`, then the
check against the `int64` range. -/
def ParseInt (s : GoString) : Int × Option GoError :=
  match s with
  | [] => (0, some errNumInvalid)
  | c :: cs =>
    let neg : Bool := c = '-'
    let s1 : GoString := if c = '+' ∨ c = '-' then cs else s
    let r := ParseUint s1
    if r.2 = some errNumInvalid then (0, r.2)
    else
      let un := r.1
      let cutoff : Nat := 2 ^ 63
      if !neg && decide (un ≥ cutoff) then ((cutoff : Int) - 1, some errNumRange)
      else if neg && decide (un > cutoff) then (-(cutoff : Int), some errNumRange)
      else (if neg then -(un : Int) else (un : Int), none)

/-! ## package time -/

/-- An instant (`time.Time`), as nanoseconds since the Unix epoch. -/
abbrev Time := Int

/-- Two's-complement wrap-around of `int64` arithmetic. -/
def wrapInt64 (x : Int) : Int := (x + 2 ^ 63) % 2 ^ 64 - 2 ^ 63

/-- Go `time.Millisecond`, a `Duration` in nanoseconds. -/
def Millisecond : Int := 1000000

/-- Go `time.Unix(sec, nsec)`. -/
def Unix (sec nsec : Int) : Time := sec * 1000000000 + nsec

/-- Go `t.Add(d)`.  (The saturation of `Add` is out of reach here: the instants
built by `Unix 0 n` with `n` an `int64` are within 293 years of the epoch.) -/
def Time.Add (t : Time) (d : Int) : Time := t + d

/-- Go `t.Before(u)`. -/
def Time.Before (t u : Time) : Bool := decide (t < u)

/-! ## webhooks.go: Authenticate -/

/-- What `Authenticate` reads from outside the function. -/
structure AuthEnv where
  /-- The value of `os.Getenv("FORM_POST_URI")`. -/
  postURI : GoString
  /-- The value of `os.Getenv("FORM_PUBLIC_KEY")`. -/
  publicKey : GoString
  /-- The value of `time.Now()`. -/
  now : Time
  /-- Go `base64.StdEncoding.DecodeString`. -/
  decodeString : GoString → Bytes × Option GoError
  /-- Go `ed25519.Verify(publicKey, message, sig)` for a key of 32 bytes; the
  message is given as the string whose bytes are signed. -/
  verify : Bytes → GoString → Bytes → Bool

def errSigFormat : GoError := .errorf "X-FormSG-Signature header format is invalid"

def errSigInvalid : GoError := .errorf "X-FormSG-Signature header is invalid"

def errNotRecent : GoError := .errorf "signature is not recent"

/-- Go `fmt.Sprintf("%s.%s.%s.%s", uri, s, f, t)`. -/
def baseString (uri s f t : GoString) : GoString :=
  uri ++ ['.'] ++ s ++ ['.'] ++ f ++ ['.'] ++ t

/-- The test `epoch.Add(time.Duration(300000) * time.Millisecond).Before(now)`
with `epoch := time.Unix(0, i*int64(time.Millisecond))`; the product is an
`int64` product. -/
def isStale (i : Int) (now : Time) : Bool :=
  let epoch := Unix 0 (wrapInt64 (i * Millisecond))
  Time.Before (Time.Add epoch (wrapInt64 (300000 * Millisecond))) now

/-- Go `Authenticate`.  The result is the returned `error` (`none` is `nil`);
`ed25519.Verify` panics when the public key is not 32 bytes long. -/
def Authenticate (env : AuthEnv) (header : GoString) : Outcome (Option GoError) :=
  match parseHeader header with
  | (_, some err) => .ret (some err)
  | (h, none) =>
    if h.t = [] ∨ h.s = [] ∨ h.f = [] ∨ h.v1 = [] then .ret (some errSigFormat)
    else
      match env.decodeString env.publicKey with
      | (_, some err) => .ret (some err)
      | (formPublicKeyBytes, none) =>
        match env.decodeString h.v1 with
        | (_, some err) => .ret (some err)
        | (signatureBytes, none) =>
          if formPublicKeyBytes.length ≠ 32 then .crash "ed25519: bad public key length"
          else if !env.verify formPublicKeyBytes (baseString env.postURI h.s h.f h.t)
              signatureBytes then
            .ret (some errSigInvalid)
          else
            match ParseInt h.t with
            | (_, some err) => .ret (some err)
            | (i, none) =>
              if isStale i env.now then .ret (some errNotRecent)
              else .ret none

/-! ## crypto/crypto.go -/

/-- The `data` object of `EncryptedBody`. -/
structure EncryptedData where
  FormID : GoString
  SubmissionID : GoString
  EncryptedContent : GoString
  Version : Int
  Created : Time
  AttachmentDownloadUrls : List (GoString × GoString)
deriving DecidableEq, Repr

/-- The JSON body sent to the /submissions endpoint from FormSG. -/
structure EncryptedBody where
  Data : EncryptedData
deriving DecidableEq, Repr

structure Field where
  ID : GoString
  Answer : GoString
  FieldType : GoString
  Question : GoString
deriving DecidableEq, Repr

/-- The `data` object of `DecryptedBody`. -/
structure DecryptedData where
  FormID : GoString
  SubmissionID : GoString
  DecryptedContent : List Field
  Version : Int
  Created : Time
deriving DecidableEq, Repr

structure DecryptedBody where
  Data : DecryptedData
deriving DecidableEq, Repr

/-- The `encryptedFile` object of `Attachment`. -/
structure EncryptedFile where
  SubmissionPublicKey : GoString
  Nonce : GoString
  Binary : GoString
deriving DecidableEq, Repr

structure Attachment where
  EncryptedFile : EncryptedFile
deriving DecidableEq, Repr

/-- What `Decrypt` and `DownloadAttachment` read from outside the function. -/
structure CryptoEnv where
  /-- The value of `os.Getenv("FORM_SECRET_KEY")`. -/
  secretKey : GoString
  /-- Go `base64.StdEncoding.DecodeString`: the bytes decoded (those before the
  first corrupt input, if any) and the error. -/
  decodeString : GoString → Bytes × Option GoError
  /-- Go `box.Open(nil, box, nonce, peersPublicKey, privateKey)`: the plaintext when
  `ok == true`; `none` is `ok == false`. -/
  boxOpen : Bytes → Bytes → Bytes → Bytes → Option Bytes
  /-- Go `json.Unmarshal(data, &fields)` into a `[]Field`. -/
  unmarshalFields : Bytes → Except GoError (List Field)
  /-- Go `http.Get(url)` followed by `io.ReadAll(resp.Body)`. -/
  httpGetBody : GoString → Except GoError Bytes
  /-- Go `json.Unmarshal(body, &attachment)` into an `Attachment`. -/
  unmarshalAttachment : Bytes → Except GoError Attachment

/-- Go `xs[i]`, which panics when `i` is out of range. -/
def index {α : Type} (xs : List α) (i : Nat) : Outcome α :=
  match xs.get? i with
  | some x => .ret x
  | none => .crash "index out of range"

/-- Go `var a [n]byte; copy(a[:], src)`: the first `n` bytes of `src`, followed by
zero bytes when `src` is shorter than `n`. -/
def copyInto (n : Nat) (src : Bytes) : Bytes :=
  src.take n ++ List.replicate (n - src.length) 0

def errDecryptContent : GoError := .errorf "Failed to decrypt content"

def errDecryptAttachment : GoError := .errorf "decrypt attachment failed"

/-- Go `Decrypt`: the returned pair `(*DecryptedBody, error)`. -/
def Decrypt (env : CryptoEnv) (encryptedBody : EncryptedBody) :
    Outcome (Option DecryptedBody × Option GoError) :=
  let splits := split ';' encryptedBody.Data.EncryptedContent
  match index splits 0 with
  | .crash m => .crash m
  | .ret s0 =>
    let submissionPublicKey := (env.decodeString s0).1
    match index splits 1 with
    | .crash m => .crash m
    | .ret nonceEncrypted =>
      let splits := split ':' nonceEncrypted
      match index splits 0 with
      | .crash m => .crash m
      | .ret n0 =>
        let nonce := (env.decodeString n0).1
        match index splits 1 with
        | .crash m => .crash m
        | .ret n1 =>
          let encrypted := (env.decodeString n1).1
          let formPrivateKey := (env.decodeString env.secretKey).1
          let nonceBytes := copyInto 24 nonce
          let submissionPublicKeyBytes := copyInto 32 submissionPublicKey
          let formPrivateKeyBytes := copyInto 32 formPrivateKey
          match env.boxOpen encrypted nonceBytes submissionPublicKeyBytes
              formPrivateKeyBytes with
          | none => .ret (none, some errDecryptContent)
          | some decBytes =>
            match env.unmarshalFields decBytes with
            | .error err => .ret (none, some err)
            | .ok fields =>
              .ret (some ⟨{ FormID := encryptedBody.Data.FormID
                            SubmissionID := encryptedBody.Data.SubmissionID
                            DecryptedContent := fields
                            Version := encryptedBody.Data.Version
                            Created := encryptedBody.Data.Created }⟩, none)

/-- The slice that `box.Open(nil, ...)` hands back for a plaintext: the plaintext is
appended to the nil slice `out`, so an empty plaintext gives back the nil slice
(`none`) and a non-empty one a fresh slice holding it. -/
def appendToNil (plaintext : Bytes) : Option Bytes :=
  if plaintext = [] then none else some plaintext

/-- The part of Go `DownloadAttachment` after the attachment has been fetched
and unmarshalled: base64 decoding, conversion to fixed-size arrays, `box.Open`. -/
def decryptAttachment (env : CryptoEnv) (attachment : Attachment) :
    Option Bytes × Option GoError :=
  let nonce := (env.decodeString attachment.EncryptedFile.Nonce).1
  let submissionPublicKey := (env.decodeString attachment.EncryptedFile.SubmissionPublicKey).1
  let formPrivateKey := (env.decodeString env.secretKey).1
  let binary := (env.decodeString attachment.EncryptedFile.Binary).1
  let nonceBytes := copyInto 24 nonce
  let submissionPublicKeyBytes := copyInto 32 submissionPublicKey
  let formPrivateKeyBytes := copyInto 32 formPrivateKey
  match env.boxOpen binary nonceBytes submissionPublicKeyBytes formPrivateKeyBytes with
  | none => (none, some errDecryptAttachment)
  | some decBytes => (appendToNil decBytes, none)

/-- Go `DownloadAttachment`: the returned pair `([]byte, error)`. -/
def DownloadAttachment (env : CryptoEnv) (url : GoString) : Option Bytes × Option GoError :=
  match env.httpGetBody url with
  | .error err => (none, some err)
  | .ok body =>
    match env.unmarshalAttachment body with
    | .error err => (none, some err)
    | .ok attachment => decryptAttachment env attachment

/-! ## Concrete environments for the examples -/

/-- An environment for `Authenticate` in which every base64 string decodes to 32
zero bytes and `ed25519.Verify` answers `valid` for every call. -/
def sampleAuthEnv (now : Time) (valid : Bool) : AuthEnv where
  postURI := "https://example.com/submissions".toList
  publicKey := "3Tt8VduXsjjd4IrpdCd7BAkdZl/vUCstu9UvTX84FWw=".toList
  now := now
  decodeString := fun _ => (List.replicate 32 0, none)
  verify := fun _ _ _ => valid

/-- The header of the end-to-end scenario, with a placeholder signature. -/
def sampleHeader : GoString :=
  "t=1582558358788,s=5e53ec96b10ee1010e00380b,f=5e4b8e3d1f61f00036c9937d,v1=c2ln".toList

/-- A clock reading in January 2027, in nanoseconds since the Unix epoch. -/
def sampleNow : Time := 1800000000000000000

/-- An environment for `Decrypt` and `DownloadAttachment` in which base64
decoding yields one byte `1` for each character, every plaintext unmarshals to
the empty field list and every URL serves the attachment envelope with public
key `k`, nonce `n` and binary `b`; `box.Open` is the given function. -/
def sampleCryptoEnv (boxOpen : Bytes → Bytes → Bytes → Bytes → Option Bytes) : CryptoEnv where
  secretKey := "sVKaIEWVnREJxyzSMjYZNaoKrpH4nFKe9685VKFbXA0=".toList
  decodeString := fun s => (s.map (fun _ => 1), none)
  boxOpen := boxOpen
  unmarshalFields := fun _ => .ok []
  httpGetBody := fun _ => .ok []
  unmarshalAttachment := fun _ => .ok ⟨⟨"k".toList, "n".toList, "b".toList⟩⟩

/-- A `box.Open` that always fails. -/
def openNever : Bytes → Bytes → Bytes → Bytes → Option Bytes := fun _ _ _ _ => none

/-- A `box.Open` that always succeeds, with an empty plaintext. -/
def openAlways : Bytes → Bytes → Bytes → Bytes → Option Bytes := fun _ _ _ _ => some []

/-- A `box.Open` that succeeds only for the 24-byte nonce `1, 0, 0, ..., 0`, with the
two-byte plaintext `hi`. -/
def openPaddedNonce : Bytes → Bytes → Bytes → Bytes → Option Bytes :=
  fun _ nonce _ _ => if nonce = 1 :: List.replicate 23 0 then some [104, 105] else none

/-- A submission body with the given `encryptedContent`. -/
def sampleBody (content : String) : EncryptedBody :=
  ⟨{ FormID := "5e4b8e3d1f61f00036c9937d".toList
     SubmissionID := "5e53ec96b10ee1010e00380b".toList
     EncryptedContent := content.toList
     Version := 1
     Created := 1582558358788000000
     AttachmentDownloadUrls := [] }⟩

/-- The `DecryptedBody` that `Decrypt` builds from `sampleBody` and an empty field
list. -/
def sampleDecrypted : DecryptedBody :=
  ⟨{ FormID := "5e4b8e3d1f61f00036c9937d".toList
     SubmissionID := "5e53ec96b10ee1010e00380b".toList
     DecryptedContent := []
     Version := 1
     Created := 1582558358788000000 }⟩

/-! ## Notions used to state the properties -/

/-- A component starts with one of the four prefixes of `parseHeader`. -/
def recognized (s : GoString) : Bool :=
  HasPrefix s "t=".toList || HasPrefix s "s=".toList || HasPrefix s "f=".toList ||
    HasPrefix s "v1=".toList

/-- The value following the prefix `pre` in the last component that starts with
`pre`, or `d` when no component does. -/
def lastValue (pre : GoString) : GoString → List GoString → GoString
  | d, [] => d
  | d, c :: rest => lastValue pre (if HasPrefix c pre then c.drop pre.length else d) rest

/-- Lines 80 to 98 of `Decrypt`: what is returned for a given result of the call
of `box.Open`. -/
def afterOpen (env : CryptoEnv) (encryptedBody : EncryptedBody) (opened : Option Bytes) :
    Outcome (Option DecryptedBody × Option GoError) :=
  match opened with
  | none => .ret (none, some errDecryptContent)
  | some decBytes =>
    match env.unmarshalFields decBytes with
    | .error err => .ret (none, some err)
    | .ok fields =>
      .ret (some ⟨{ FormID := encryptedBody.Data.FormID
                    SubmissionID := encryptedBody.Data.SubmissionID
                    DecryptedContent := fields
                    Version := encryptedBody.Data.Version
                    Created := encryptedBody.Data.Created }⟩, none)

/-- The number of components that start with the prefix `pre`. -/
def countPrefix (pre : GoString) (parts : List GoString) : Nat :=
  parts.countP (fun c => HasPrefix c pre)

/-! ## Lemmas on `split`, `join` and prefixes -/

theorem prefT_eq : "t=".toList = ['t', '='] := rfl
theorem prefS_eq : "s=".toList = ['s', '='] := rfl
theorem prefF_eq : "f=".toList = ['f', '='] := rfl
theorem prefV_eq : "v1=".toList = ['v', '1', '='] := rfl

theorem parseFields_eq (parts : List GoString) (h : Header) :
    parseFields parts h =
      if parts.all recognized then
        (⟨lastValue "t=".toList h.t parts, lastValue "s=".toList h.s parts,
          lastValue "f=".toList h.f parts, lastValue "v1=".toList h.v1 parts⟩, none)
      else (Header.zero, some errHeaderFormat) := by
  induction parts generalizing h with
  | nil => simp [parseFields, lastValue]
  | cons c rest ih =>
    rcases c with _ | ⟨x, xs⟩
    · simp [parseFields, HasPrefix, recognized, prefT_eq, prefS_eq, prefF_eq, prefV_eq]
    · have key : ∀ (a : Char) (p : GoString), HasPrefix (x :: xs) (a :: p) = ((a == x) && p.isPrefixOf xs) := by
        intro a p; rfl
      simp only [parseFields, recognized, prefT_eq, prefS_eq, prefF_eq, prefV_eq, key, ih,
        lastValue, List.all_cons]
      by_cases h1 : 't' = x
      · subst h1
        by_cases hp : ['='].isPrefixOf xs = true <;> simp [hp]
      · by_cases h2 : 's' = x
        · subst h2
          by_cases hp : ['='].isPrefixOf xs = true <;> simp [hp]
        · by_cases h3 : 'f' = x
          · subst h3
            by_cases hp : ['='].isPrefixOf xs = true <;> simp [hp]
          · by_cases h4 : 'v' = x
            · subst h4
              by_cases hp : ['1', '='].isPrefixOf xs = true <;> simp [hp]
            · simp [h1, h2, h3, h4]

theorem split_ne_nil (sep : Char) (s : GoString) : split sep s ≠ [] := by
  cases s with
  | nil => simp [split]
  | cons c cs =>
    simp only [split]
    split_ifs
    · simp
    · split <;> simp

theorem split_not_mem (sep : Char) (s : GoString) : ∀ p ∈ split sep s, sep ∉ p := by
  induction s with
  | nil => simp [split]
  | cons c cs ih =>
    intro p hp
    simp only [split] at hp
    split_ifs at hp with hc
    · rcases List.mem_cons.1 hp with rfl | h
      · simp
      · exact ih p h
    · cases hs : split sep cs with
      | nil => exact absurd hs (split_ne_nil sep cs)
      | cons q qs =>
        rw [hs] at hp ih
        rcases List.mem_cons.1 hp with rfl | h
        · intro hmem
          rcases List.mem_cons.1 hmem with h1 | h1
          · exact hc h1.symm
          · exact ih q (List.mem_cons_self _ _) h1
        · exact ih p (List.mem_cons_of_mem _ h)

theorem split_of_not_mem (sep : Char) (s : GoString) (h : sep ∉ s) : split sep s = [s] := by
  induction s with
  | nil => simp [split]
  | cons c cs ih =>
    have hc : ¬ c = sep := fun e => h (by simp [e])
    have hcs : sep ∉ cs := fun e => h (List.mem_cons_of_mem _ e)
    simp [split, hc, ih hcs]

theorem split_append_sep (sep : Char) (p r : GoString) (h : sep ∉ p) :
    split sep (p ++ sep :: r) = p :: split sep r := by
  induction p with
  | nil => simp [split]
  | cons c cs ih =>
    have hc : ¬ c = sep := fun e => h (by simp [e])
    have hcs : sep ∉ cs := fun e => h (List.mem_cons_of_mem _ e)
    simp [split, hc, ih hcs]

theorem split_join (sep : Char) (parts : List GoString) (hne : parts ≠ [])
    (h : ∀ p ∈ parts, sep ∉ p) : split sep (join sep parts) = parts := by
  induction parts with
  | nil => exact absurd rfl hne
  | cons p rest ih =>
    cases rest with
    | nil => simpa [join] using split_of_not_mem sep p (h p (List.mem_cons_self _ _))
    | cons q rest =>
      have hp : sep ∉ p := h p (List.mem_cons_self _ _)
      have hrest : ∀ x ∈ q :: rest, sep ∉ x := fun x hx => h x (List.mem_cons_of_mem _ hx)
      simp only [join]
      rw [split_append_sep sep p _ hp, ih (by simp) hrest]

/-! ## Lemmas on `lastValue` and `countPrefix` -/

theorem hasPrefix_append (pre v : GoString) : HasPrefix (pre ++ v) pre = true := by
  simp [HasPrefix]

theorem hasPrefix_eq_append {s pre : GoString} (h : HasPrefix s pre = true) :
    s = pre ++ s.drop pre.length := by
  obtain ⟨r, rfl⟩ := List.isPrefixOf_iff_prefix.1 h
  simp

theorem lastValue_of_count_zero (pre d : GoString) (parts : List GoString)
    (h : countPrefix pre parts = 0) : lastValue pre d parts = d := by
  induction parts generalizing d with
  | nil => rfl
  | cons c rest ih =>
    by_cases hc : HasPrefix c pre = true
    · simp [countPrefix, hc] at h
    · have h0 : countPrefix pre rest = 0 := by simpa [countPrefix, hc] using h
      simp [lastValue, hc, ih _ h0]

theorem lastValue_of_count_one (pre d : GoString) (parts : List GoString)
    (h : countPrefix pre parts = 1) :
    ∀ c ∈ parts, HasPrefix c pre = true → lastValue pre d parts = c.drop pre.length := by
  induction parts generalizing d with
  | nil => simp
  | cons c rest ih =>
    intro x hx hpx
    by_cases hc : HasPrefix c pre = true
    · have h0 : countPrefix pre rest = 0 := by simpa [countPrefix, hc] using h
      rcases List.mem_cons.1 hx with rfl | hmem
      · simp [lastValue, hc, lastValue_of_count_zero _ _ _ h0]
      · exfalso
        have : 0 < countPrefix pre rest := List.countP_pos_iff.2 ⟨x, hmem, hpx⟩
        omega
    · have h1 : countPrefix pre rest = 1 := by simpa [countPrefix, hc] using h
      rcases List.mem_cons.1 hx with rfl | hmem
      · exact absurd hpx hc
      · simpa [lastValue, hc] using ih d h1 x hmem hpx

theorem lastValue_not_mem (sep : Char) (pre d : GoString) (parts : List GoString)
    (hd : sep ∉ d) (h : ∀ p ∈ parts, sep ∉ p) : sep ∉ lastValue pre d parts := by
  induction parts generalizing d with
  | nil => simpa [lastValue] using hd
  | cons c rest ih =>
    simp only [lastValue]
    apply ih
    · split_ifs
      · exact fun hm => h c (List.mem_cons_self _ _) (List.mem_of_mem_drop hm)
      · exact hd
    · exact fun p hp => h p (List.mem_cons_of_mem _ hp)

theorem lastValue_append (pre d : GoString) (l1 l2 : List GoString) :
    lastValue pre d (l1 ++ l2) = lastValue pre (lastValue pre d l1) l2 := by
  induction l1 generalizing d with
  | nil => rfl
  | cons c rest ih =>
    show lastValue pre _ (rest ++ l2) = _
    rw [ih]
    rfl

/-- The last component that starts with `pre` decides `lastValue`. -/
theorem lastValue_last_wins (pre d c : GoString) (l1 l2 : List GoString)
    (hc : HasPrefix c pre = true) (h2 : ∀ x ∈ l2, HasPrefix x pre = false) :
    lastValue pre d (l1 ++ c :: l2) = c.drop pre.length := by
  have h0 : countPrefix pre l2 = 0 := by
    unfold countPrefix
    rw [List.countP_eq_zero]
    intro x hx
    simp [h2 x hx]
  rw [lastValue_append]
  simp only [lastValue, hc, if_true]
  exact lastValue_of_count_zero _ _ _ h0

/-- The four prefixes exclude one another: a component starts with at most one. -/
theorem prefix_indicator (c : GoString) :
    (if HasPrefix c "t=".toList then 1 else 0) + (if HasPrefix c "s=".toList then 1 else 0) +
      (if HasPrefix c "f=".toList then 1 else 0) + (if HasPrefix c "v1=".toList then 1 else 0) =
      if recognized c then 1 else 0 := by
  rcases c with _ | ⟨x, xs⟩
  · simp [HasPrefix, recognized, prefT_eq, prefS_eq, prefF_eq, prefV_eq]
  · have key : ∀ (a : Char) (p : GoString),
        HasPrefix (x :: xs) (a :: p) = ((a == x) && p.isPrefixOf xs) := by
      intro a p; rfl
    simp only [recognized, prefT_eq, prefS_eq, prefF_eq, prefV_eq, key]
    by_cases h1 : 't' = x
    · subst h1
      by_cases hp : ['='].isPrefixOf xs = true <;> simp [hp]
    · by_cases h2 : 's' = x
      · subst h2
        by_cases hp : ['='].isPrefixOf xs = true <;> simp [hp]
      · by_cases h3 : 'f' = x
        · subst h3
          by_cases hp : ['='].isPrefixOf xs = true <;> simp [hp]
        · by_cases h4 : 'v' = x
          · subst h4
            by_cases hp : ['1', '='].isPrefixOf xs = true <;> simp [hp]
          · simp [h1, h2, h3, h4]

theorem prefix_exclusive (c : GoString) :
    ¬ (HasPrefix c "t=".toList = true ∧ HasPrefix c "s=".toList = true) ∧
    ¬ (HasPrefix c "t=".toList = true ∧ HasPrefix c "f=".toList = true) ∧
    ¬ (HasPrefix c "t=".toList = true ∧ HasPrefix c "v1=".toList = true) ∧
    ¬ (HasPrefix c "s=".toList = true ∧ HasPrefix c "f=".toList = true) ∧
    ¬ (HasPrefix c "s=".toList = true ∧ HasPrefix c "v1=".toList = true) ∧
    ¬ (HasPrefix c "f=".toList = true ∧ HasPrefix c "v1=".toList = true) := by
  have hi := prefix_indicator c
  revert hi
  cases HasPrefix c "t=".toList <;> cases HasPrefix c "s=".toList <;>
    cases HasPrefix c "f=".toList <;> cases HasPrefix c "v1=".toList <;>
    cases recognized c <;> simp

theorem countPrefix_sum (parts : List GoString) (h : parts.all recognized = true) :
    countPrefix "t=".toList parts + countPrefix "s=".toList parts +
      countPrefix "f=".toList parts + countPrefix "v1=".toList parts = parts.length := by
  induction parts with
  | nil => simp [countPrefix]
  | cons c rest ih =>
    simp only [List.all_cons, Bool.and_eq_true] at h
    have hi := prefix_indicator c
    have ih' := ih h.2
    simp only [h.1, if_true] at hi
    simp only [countPrefix, List.countP_cons, List.length_cons] at ih' ⊢
    omega

/-! ## Lemmas on `parseHeader` -/

theorem parseHeader_eq (header : GoString) :
    parseHeader header =
      if (split ',' header).length = 4 ∧ (split ',' header).all recognized = true then
        (⟨lastValue "t=".toList [] (split ',' header), lastValue "s=".toList [] (split ',' header),
          lastValue "f=".toList [] (split ',' header),
          lastValue "v1=".toList [] (split ',' header)⟩, none)
      else (Header.zero, some errHeaderFormat) := by
  unfold parseHeader
  by_cases h4 : (split ',' header).length = 4
  · by_cases hr : (split ',' header).all recognized = true
    · simp [h4, hr, parseFields_eq, Header.zero]
    · simp [h4, hr, parseFields_eq, Header.zero]
  · simp [h4]

theorem parseHeader_ok {header : GoString} {h : Header} (hp : parseHeader header = (h, none)) :
    (split ',' header).length = 4 ∧ (split ',' header).all recognized = true ∧
      h = ⟨lastValue "t=".toList [] (split ',' header), lastValue "s=".toList [] (split ',' header),
          lastValue "f=".toList [] (split ',' header),
          lastValue "v1=".toList [] (split ',' header)⟩ := by
  rw [parseHeader_eq] at hp
  split_ifs at hp with hc
  · exact ⟨hc.1, hc.2, (Prod.mk.inj hp).1.symm⟩
  · simp at hp

/-- The four components rebuilt from a record. -/
theorem rebuilt_counts (vt vs vf vv : GoString) :
    countPrefix "t=".toList
      ["t=".toList ++ vt, "s=".toList ++ vs, "f=".toList ++ vf, "v1=".toList ++ vv] = 1 ∧
    countPrefix "s=".toList
      ["t=".toList ++ vt, "s=".toList ++ vs, "f=".toList ++ vf, "v1=".toList ++ vv] = 1 ∧
    countPrefix "f=".toList
      ["t=".toList ++ vt, "s=".toList ++ vs, "f=".toList ++ vf, "v1=".toList ++ vv] = 1 ∧
    countPrefix "v1=".toList
      ["t=".toList ++ vt, "s=".toList ++ vs, "f=".toList ++ vf, "v1=".toList ++ vv] = 1 ∧
    (["t=".toList ++ vt, "s=".toList ++ vs, "f=".toList ++ vf, "v1=".toList ++ vv].all
      recognized = true) := by
  simp [countPrefix, recognized, HasPrefix, List.isPrefixOf, List.countP_cons]

/-! ## Properties of the header codec -/

/-- C6: `parseHeader` returns the format error, together with the zero record,
for every header whose split on `,` does not have exactly 4 components, and for
every header with 4 components one of which starts with none of `t=`, `s=`,
`f=`, `v1=`; whenever `parseHeader` returns an error the record is `Header{}`. -/
theorem parseHeader_rejects_malformed (header : GoString) :
    ((split ',' header).length ≠ 4 →
        parseHeader header = (Header.zero, some errHeaderFormat)) ∧
    ((split ',' header).length = 4 →
        (∃ c ∈ split ',' header, HasPrefix c "t=".toList = false ∧
          HasPrefix c "s=".toList = false ∧ HasPrefix c "f=".toList = false ∧
          HasPrefix c "v1=".toList = false) →
        parseHeader header = (Header.zero, some errHeaderFormat)) ∧
    ((parseHeader header).2 ≠ none → (parseHeader header).1 = Header.zero) := by
  refine ⟨?_, ?_, ?_⟩
  · intro h
    rw [parseHeader_eq, if_neg (fun hc => h hc.1)]
  · rintro - ⟨c, hc, h1, h2, h3, h4⟩
    rw [parseHeader_eq, if_neg]
    rintro ⟨-, hall⟩
    have := List.all_eq_true.1 hall c hc
    simp only [recognized, h1, h2, h3, h4] at this
    exact absurd this (by decide)
  · rw [parseHeader_eq]
    split_ifs <;> simp

theorem parseHeader_rejects_malformed_witness :
    ((split ',' "t=1,s=2,f=3".toList).length ≠ 4 ∧
      parseHeader "t=1,s=2,f=3".toList = (Header.zero, some errHeaderFormat)) ∧
    ((split ',' "t=1,s=2,f=3,v1=4,v1=5".toList).length ≠ 4 ∧
      parseHeader "t=1,s=2,f=3,v1=4,v1=5".toList = (Header.zero, some errHeaderFormat)) ∧
    ((split ',' "t=1,s=2,x=3,v1=4".toList).length = 4 ∧
      parseHeader "t=1,s=2,x=3,v1=4".toList = (Header.zero, some errHeaderFormat)) :=
  ⟨⟨by decide, (parseHeader_rejects_malformed _).1 (by decide)⟩,
   ⟨by decide, (parseHeader_rejects_malformed _).1 (by decide)⟩,
   ⟨by decide, (parseHeader_rejects_malformed _).2.1 (by decide)
      ⟨"x=3".toList, by decide, by decide, by decide, by decide, by decide⟩⟩⟩

/-- C10: a header that passes the format checks of `Authenticate` (`parseHeader`
succeeds with record `h` and no field of `h` is empty) has exactly four
comma-separated components, each of the prefixes `t=`, `s=`, `f=`, `v1=` starts
exactly one of them, the value after the prefix is non-empty in every
component, and the components are, in some order, `t=`, `s=`, `f=`, `v1=`
followed by the four fields of `h`. -/
theorem accepted_header_wellformed (header : GoString) (h : Header)
    (hp : parseHeader header = (h, none))
    (hne : ¬ (h.t = [] ∨ h.s = [] ∨ h.f = [] ∨ h.v1 = [])) :
    (split ',' header).length = 4 ∧
    countPrefix "t=".toList (split ',' header) = 1 ∧
    countPrefix "s=".toList (split ',' header) = 1 ∧
    countPrefix "f=".toList (split ',' header) = 1 ∧
    countPrefix "v1=".toList (split ',' header) = 1 ∧
    (∀ c ∈ split ',' header,
      (HasPrefix c "t=".toList = true → c.drop 2 ≠ []) ∧
      (HasPrefix c "s=".toList = true → c.drop 2 ≠ []) ∧
      (HasPrefix c "f=".toList = true → c.drop 2 ≠ []) ∧
      (HasPrefix c "v1=".toList = true → c.drop 3 ≠ [])) ∧
    (split ',' header).Perm
      ["t=".toList ++ h.t, "s=".toList ++ h.s, "f=".toList ++ h.f, "v1=".toList ++ h.v1] := by
  obtain ⟨h4, hall, rfl⟩ := parseHeader_ok hp
  simp only [not_or] at hne
  obtain ⟨nt, ns, nf, nv⟩ := hne
  have hsum := countPrefix_sum _ hall
  have ct : countPrefix "t=".toList (split ',' header) ≠ 0 :=
    fun h0 => nt (lastValue_of_count_zero _ _ _ h0)
  have cs : countPrefix "s=".toList (split ',' header) ≠ 0 :=
    fun h0 => ns (lastValue_of_count_zero _ _ _ h0)
  have cf : countPrefix "f=".toList (split ',' header) ≠ 0 :=
    fun h0 => nf (lastValue_of_count_zero _ _ _ h0)
  have cv : countPrefix "v1=".toList (split ',' header) ≠ 0 :=
    fun h0 => nv (lastValue_of_count_zero _ _ _ h0)
  have ct1 : countPrefix "t=".toList (split ',' header) = 1 := by omega
  have cs1 : countPrefix "s=".toList (split ',' header) = 1 := by omega
  have cf1 : countPrefix "f=".toList (split ',' header) = 1 := by omega
  have cv1 : countPrefix "v1=".toList (split ',' header) = 1 := by omega
  have vt := lastValue_of_count_one "t=".toList [] _ ct1
  have vs := lastValue_of_count_one "s=".toList [] _ cs1
  have vf := lastValue_of_count_one "f=".toList [] _ cf1
  have vv := lastValue_of_count_one "v1=".toList [] _ cv1
  refine ⟨h4, ct1, cs1, cf1, cv1, ?_, ?_⟩
  · intro c hc
    refine ⟨fun hpre => ?_, fun hpre => ?_, fun hpre => ?_, fun hpre => ?_⟩
    · exact fun he => nt ((vt c hc hpre).trans he)
    · exact fun he => ns ((vs c hc hpre).trans he)
    · exact fun he => nf ((vf c hc hpre).trans he)
    · exact fun he => nv ((vv c hc hpre).trans he)
  · obtain ⟨a, ha, pa⟩ := List.countP_pos_iff.1 (Nat.pos_of_ne_zero ct)
    obtain ⟨b, hb, pb⟩ := List.countP_pos_iff.1 (Nat.pos_of_ne_zero cs)
    obtain ⟨c, hc, pc⟩ := List.countP_pos_iff.1 (Nat.pos_of_ne_zero cf)
    obtain ⟨d, hd, pd⟩ := List.countP_pos_iff.1 (Nat.pos_of_ne_zero cv)
    have ea := hasPrefix_eq_append pa
    have eb := hasPrefix_eq_append pb
    have ec := hasPrefix_eq_append pc
    have ed := hasPrefix_eq_append pd
    rw [← vt a ha pa] at ea
    rw [← vs b hb pb] at eb
    rw [← vf c hc pc] at ec
    rw [← vv d hd pd] at ed
    rw [← ea, ← eb, ← ec, ← ed]
    have hnd : [a, b, c, d].Nodup := by
      obtain ⟨x1, x2, x3, x4, x5, x6⟩ := prefix_exclusive a
      obtain ⟨y1, y2, y3, y4, y5, y6⟩ := prefix_exclusive b
      obtain ⟨z1, z2, z3, z4, z5, z6⟩ := prefix_exclusive c
      simp only [List.nodup_cons, List.mem_cons, List.mem_singleton, List.not_mem_nil,
        not_or, List.nodup_nil, and_true, not_false_eq_true]
      refine ⟨⟨?_, ?_, ?_⟩, ⟨?_, ?_⟩, ?_⟩
      · rintro rfl; exact x1 ⟨pa, pb⟩
      · rintro rfl; exact x2 ⟨pa, pc⟩
      · rintro rfl; exact x3 ⟨pa, pd⟩
      · rintro rfl; exact y4 ⟨pb, pc⟩
      · rintro rfl; exact y5 ⟨pb, pd⟩
      · rintro rfl; exact z6 ⟨pc, pd⟩
    have hsub : [a, b, c, d] ⊆ split ',' header := by
      intro x hx
      simp only [List.mem_cons, List.mem_singleton, List.not_mem_nil, or_false] at hx
      rcases hx with rfl | rfl | rfl | rfl <;> assumption
    exact ((List.subperm_of_subset hnd hsub).perm_of_length_le (by simp [h4])).symm

theorem accepted_header_wellformed_witness :
    parseHeader "v1=4,f=3,t=1,s=2".toList =
        (⟨"1".toList, "2".toList, "3".toList, "4".toList⟩, none) ∧
    (split ',' "v1=4,f=3,t=1,s=2".toList).Perm
      ["t=1".toList, "s=2".toList, "f=3".toList, "v1=4".toList] :=
  ⟨by decide,
   (accepted_header_wellformed "v1=4,f=3,t=1,s=2".toList
      ⟨"1".toList, "2".toList, "3".toList, "4".toList⟩ (by decide) (by decide)).2.2.2.2.2.2⟩

/-- C7: `parseHeader` round-trips and is insensitive to the order of the
components: if `parseHeader` accepts a header and yields the record `h`, then for
every ordering of the four components `t=`+h.t, `s=`+h.s, `f=`+h.f, `v1=`+h.v1,
joined with `,`, `parseHeader` succeeds and returns `h` again.  (No assumption
on how often each prefix occurs in the original header is needed.) -/
theorem parseHeader_roundtrip (header : GoString) (h : Header)
    (hp : parseHeader header = (h, none)) (p : List GoString)
    (hperm : p.Perm
      ["t=".toList ++ h.t, "s=".toList ++ h.s, "f=".toList ++ h.f, "v1=".toList ++ h.v1]) :
    parseHeader (join ',' p) = (h, none) := by
  obtain ⟨-, -, rfl⟩ := parseHeader_ok hp
  simp only at hperm
  have hfree := split_not_mem ',' header
  have e0 : (',' : Char) ∉ ([] : GoString) := by simp
  have ft := lastValue_not_mem ',' "t=".toList [] _ e0 hfree
  have fs := lastValue_not_mem ',' "s=".toList [] _ e0 hfree
  have ff := lastValue_not_mem ',' "f=".toList [] _ e0 hfree
  have fv := lastValue_not_mem ',' "v1=".toList [] _ e0 hfree
  have hK : ∀ c ∈ p, (',' : Char) ∉ c := by
    intro c hc
    have := hperm.subset hc
    simp only [List.mem_cons, List.mem_singleton, List.not_mem_nil, or_false] at this
    rcases this with rfl | rfl | rfl | rfl
    · simp; exact ft
    · simp; exact fs
    · simp; exact ff
    · simp; exact fv
  have hlen : p.length = 4 := by simpa using hperm.length_eq
  have hne : p ≠ [] := by intro e; simp [e] at hlen
  obtain ⟨ct, cs, cf, cv, hrec⟩ := rebuilt_counts
    (lastValue "t=".toList [] (split ',' header)) (lastValue "s=".toList [] (split ',' header))
    (lastValue "f=".toList [] (split ',' header)) (lastValue "v1=".toList [] (split ',' header))
  have hall : p.all recognized = true := by
    rw [List.all_eq_true] at hrec ⊢
    exact fun c hc => hrec c (hperm.subset hc)
  unfold countPrefix at ct cs cf cv
  rw [← hperm.countP_eq] at ct cs cf cv
  have mt := hperm.symm.subset (List.mem_cons_self _ _)
  have ms := hperm.symm.subset (List.mem_cons_of_mem _ (List.mem_cons_self _ _))
  have mf := hperm.symm.subset
    (List.mem_cons_of_mem _ (List.mem_cons_of_mem _ (List.mem_cons_self _ _)))
  have mv := hperm.symm.subset
    (List.mem_cons_of_mem _ (List.mem_cons_of_mem _ (List.mem_cons_of_mem _
      (List.mem_cons_self _ _))))
  rw [parseHeader_eq, split_join ',' p hne hK, if_pos ⟨hlen, hall⟩,
    lastValue_of_count_one "t=".toList [] p ct _ mt (hasPrefix_append _ _),
    lastValue_of_count_one "s=".toList [] p cs _ ms (hasPrefix_append _ _),
    lastValue_of_count_one "f=".toList [] p cf _ mf (hasPrefix_append _ _),
    lastValue_of_count_one "v1=".toList [] p cv _ mv (hasPrefix_append _ _)]
  simp

theorem parseHeader_roundtrip_witness :
    parseHeader "t=1,s=2,f=3,v1=4".toList =
        (⟨"1".toList, "2".toList, "3".toList, "4".toList⟩, none) ∧
    parseHeader (join ',' ["v1=4".toList, "t=1".toList, "f=3".toList, "s=2".toList]) =
        (⟨"1".toList, "2".toList, "3".toList, "4".toList⟩, none) :=
  ⟨by decide,
   parseHeader_roundtrip "t=1,s=2,f=3,v1=4".toList
     ⟨"1".toList, "2".toList, "3".toList, "4".toList⟩ (by decide)
     ["v1=4".toList, "t=1".toList, "f=3".toList, "s=2".toList] (by decide)⟩

/-- C5 fails on the code: the header `t=1,t=2,s=3,f=4` has four components, two of
which start with `t=`, and `parseHeader` returns no error: the later value
overwrites the earlier one and `v1` stays empty. -/
theorem parseHeader_accepts_duplicated_prefix :
    (split ',' "t=1,t=2,s=3,f=4".toList).length = 4 ∧
    countPrefix "t=".toList (split ',' "t=1,t=2,s=3,f=4".toList) = 2 ∧
    parseHeader "t=1,t=2,s=3,f=4".toList =
      (⟨"2".toList, "3".toList, "4".toList, []⟩, none) := by
  decide

/-- C5, amended: for a header with exactly four components in which some
recognised prefix starts two or more components, `parseHeader` itself reports an
error only when a component has no recognised prefix; otherwise it succeeds, a
later duplicate overwriting the earlier one (each field holds the value of the
last component that starts with its prefix), with at least one field left empty.
In both cases `Authenticate` returns a format error, before any decoding or
signature verification. -/
theorem duplicated_prefix_rejected_by_Authenticate (env : AuthEnv) (header : GoString)
    (h4 : (split ',' header).length = 4)
    (hdup : 2 ≤ countPrefix "t=".toList (split ',' header) ∨
      2 ≤ countPrefix "s=".toList (split ',' header) ∨
      2 ≤ countPrefix "f=".toList (split ',' header) ∨
      2 ≤ countPrefix "v1=".toList (split ',' header)) :
    ((split ',' header).all recognized = true →
      (parseHeader header).2 = none ∧
      (∀ (l1 : List GoString) (c : GoString) (l2 : List GoString),
        split ',' header = l1 ++ c :: l2 →
        (HasPrefix c "t=".toList = true → (∀ x ∈ l2, HasPrefix x "t=".toList = false) →
          (parseHeader header).1.t = c.drop 2) ∧
        (HasPrefix c "s=".toList = true → (∀ x ∈ l2, HasPrefix x "s=".toList = false) →
          (parseHeader header).1.s = c.drop 2) ∧
        (HasPrefix c "f=".toList = true → (∀ x ∈ l2, HasPrefix x "f=".toList = false) →
          (parseHeader header).1.f = c.drop 2) ∧
        (HasPrefix c "v1=".toList = true → (∀ x ∈ l2, HasPrefix x "v1=".toList = false) →
          (parseHeader header).1.v1 = c.drop 3)) ∧
      ((parseHeader header).1.t = [] ∨ (parseHeader header).1.s = [] ∨
        (parseHeader header).1.f = [] ∨ (parseHeader header).1.v1 = []) ∧
      Authenticate env header = .ret (some errSigFormat)) ∧
    ((split ',' header).all recognized = false →
      parseHeader header = (Header.zero, some errHeaderFormat) ∧
      Authenticate env header = .ret (some errHeaderFormat)) := by
  constructor
  · intro hall
    have hsum := countPrefix_sum _ hall
    have hpe := parseHeader_eq header
    rw [if_pos ⟨h4, hall⟩] at hpe
    have hempty : lastValue "t=".toList [] (split ',' header) = [] ∨
        lastValue "s=".toList [] (split ',' header) = [] ∨
        lastValue "f=".toList [] (split ',' header) = [] ∨
        lastValue "v1=".toList [] (split ',' header) = [] := by
      by_cases ct : countPrefix "t=".toList (split ',' header) = 0
      · exact Or.inl (lastValue_of_count_zero _ _ _ ct)
      by_cases cs : countPrefix "s=".toList (split ',' header) = 0
      · exact Or.inr (Or.inl (lastValue_of_count_zero _ _ _ cs))
      by_cases cf : countPrefix "f=".toList (split ',' header) = 0
      · exact Or.inr (Or.inr (Or.inl (lastValue_of_count_zero _ _ _ cf)))
      by_cases cv : countPrefix "v1=".toList (split ',' header) = 0
      · exact Or.inr (Or.inr (Or.inr (lastValue_of_count_zero _ _ _ cv)))
      omega
    refine ⟨by rw [hpe], ?_, by rw [hpe]; exact hempty, ?_⟩
    · intro l1 c l2 hsplit
      rw [hpe, hsplit]
      exact ⟨fun hc h2 => lastValue_last_wins "t=".toList [] c l1 l2 hc h2,
        fun hc h2 => lastValue_last_wins "s=".toList [] c l1 l2 hc h2,
        fun hc h2 => lastValue_last_wins "f=".toList [] c l1 l2 hc h2,
        fun hc h2 => lastValue_last_wins "v1=".toList [] c l1 l2 hc h2⟩
    · unfold Authenticate
      rw [hpe]
      simp only [if_pos hempty]
  · intro hall
    have hpe := parseHeader_eq header
    rw [if_neg (by simp [hall])] at hpe
    refine ⟨hpe, ?_⟩
    unfold Authenticate
    rw [hpe]

theorem duplicated_prefix_rejected_by_Authenticate_witness :
    (parseHeader "t=1,t=2,s=3,f=4".toList).1.t = "2".toList ∧
    Authenticate (sampleAuthEnv sampleNow true) "t=1,t=2,s=3,f=4".toList =
      .ret (some errSigFormat) :=
  ⟨(((duplicated_prefix_rejected_by_Authenticate (sampleAuthEnv sampleNow true)
      "t=1,t=2,s=3,f=4".toList (by decide) (Or.inl (by decide))).1 (by decide)).2.1
      ["t=1".toList] "t=2".toList ["s=3".toList, "f=4".toList] (by decide)).1
      (by decide) (by decide),
   ((duplicated_prefix_rejected_by_Authenticate (sampleAuthEnv sampleNow true)
    "t=1,t=2,s=3,f=4".toList (by decide) (Or.inl (by decide))).1 (by decide)).2.2.2⟩

/-! ## Properties of `Authenticate` -/

theorem wrapInt64_of_fits (x : Int) (h : -2 ^ 63 ≤ x ∧ x < 2 ^ 63) : wrapInt64 x = x := by
  unfold wrapInt64
  omega

/-- Without overflow of the conversion to nanoseconds the staleness test fires
exactly when `i` ms plus 300000 ms is strictly before `now`. -/
theorem isStale_of_fits (i : Int) (now : Time)
    (h : -2 ^ 63 ≤ i * 1000000 ∧ i * 1000000 < 2 ^ 63) :
    isStale i now = true ↔ (i + 300000) * 1000000 < now := by
  have h300 : wrapInt64 (300000 * Millisecond) = 300000000000 := by decide
  simp only [isStale, Unix, Time.Add, Time.Before, Millisecond, decide_eq_true_eq] at h300 ⊢
  rw [wrapInt64_of_fits _ h, h300]
  constructor <;> intro h' <;> linarith

/-- C1: `Authenticate` is a gate on both checks.  If it returns `nil` then the
header parsed into a record `h`, the public key and `h.v1` decoded from base64
without error, `ed25519.Verify` returned true on the decoded key, the string
postURI + "." + h.s + "." + h.f + "." + h.t and the decoded signature, `h.t` parsed
as a base-10 `int64` and the staleness test did not fire.  Moreover, whenever the
call of `ed25519.Verify` (reached with a decoded key of 32 bytes) returns false,
`Authenticate` returns the invalid signature error, whatever the timestamp and
the clock are; and with a verifier that rejects everything `Authenticate` never
returns `nil`. -/
theorem Authenticate_gate (env : AuthEnv) (header : GoString) :
    (Authenticate env header = .ret none →
      ∃ h pk sig i, parseHeader header = (h, none) ∧
        env.decodeString env.publicKey = (pk, none) ∧
        env.decodeString h.v1 = (sig, none) ∧
        env.verify pk (env.postURI ++ ['.'] ++ h.s ++ ['.'] ++ h.f ++ ['.'] ++ h.t) sig = true ∧
        ParseInt h.t = (i, none) ∧
        isStale i env.now = false) ∧
    (∀ h pk sig, parseHeader header = (h, none) →
        ¬ (h.t = [] ∨ h.s = [] ∨ h.f = [] ∨ h.v1 = []) →
        env.decodeString env.publicKey = (pk, none) → pk.length = 32 →
        env.decodeString h.v1 = (sig, none) →
        env.verify pk (env.postURI ++ ['.'] ++ h.s ++ ['.'] ++ h.f ++ ['.'] ++ h.t) sig = false →
        Authenticate env header = .ret (some errSigInvalid)) ∧
    ((∀ pk msg sig, env.verify pk msg sig = false) → Authenticate env header ≠ .ret none) := by
  have main : Authenticate env header = .ret none →
      ∃ h pk sig i, parseHeader header = (h, none) ∧
        env.decodeString env.publicKey = (pk, none) ∧
        env.decodeString h.v1 = (sig, none) ∧
        env.verify pk (env.postURI ++ ['.'] ++ h.s ++ ['.'] ++ h.f ++ ['.'] ++ h.t) sig = true ∧
        ParseInt h.t = (i, none) ∧
        isStale i env.now = false := by
    intro hok
    rcases hph : parseHeader header with ⟨h, _ | e⟩
    swap
    · simp [Authenticate, hph] at hok
    by_cases hne : h.t = [] ∨ h.s = [] ∨ h.f = [] ∨ h.v1 = []
    · simp [Authenticate, hph, hne] at hok
    rcases hpk : env.decodeString env.publicKey with ⟨pk, _ | e⟩
    swap
    · simp [Authenticate, hph, hne, hpk] at hok
    rcases hsig : env.decodeString h.v1 with ⟨sig, _ | e⟩
    swap
    · simp [Authenticate, hph, hne, hpk, hsig] at hok
    by_cases hlen : pk.length = 32
    swap
    · simp [Authenticate, hph, hne, hpk, hsig, hlen] at hok
    by_cases hver : env.verify pk (baseString env.postURI h.s h.f h.t) sig = true
    swap
    · simp [Authenticate, hph, hne, hpk, hsig, hlen, hver] at hok
    rcases hint : ParseInt h.t with ⟨i, _ | e⟩
    swap
    · simp [Authenticate, hph, hne, hpk, hsig, hlen, hver, hint] at hok
    by_cases hst : isStale i env.now = true
    · simp [Authenticate, hph, hne, hpk, hsig, hlen, hver, hint, hst] at hok
    exact ⟨h, pk, sig, i, rfl, rfl, hsig, by simpa [baseString] using hver, hint,
      by simpa using hst⟩
  refine ⟨main, ?_, ?_⟩
  · intro h pk sig hp hne hpk hlen hsig hver
    unfold Authenticate
    rw [hp]
    have hver' : env.verify pk (baseString env.postURI h.s h.f h.t) sig = false := by
      simpa [baseString] using hver
    simp [hne, hpk, hsig, hlen, hver']
  · intro hall hok
    obtain ⟨h, pk, sig, i, -, -, -, hv, -⟩ := main hok
    rw [hall] at hv
    exact absurd hv (by decide)

theorem Authenticate_gate_witness :
    Authenticate (sampleAuthEnv 1582558359788000000 true) sampleHeader = .ret none ∧
    (∃ h pk sig i, parseHeader sampleHeader = (h, none) ∧
        (sampleAuthEnv 1582558359788000000 true).decodeString
          (sampleAuthEnv 1582558359788000000 true).publicKey = (pk, none) ∧
        (sampleAuthEnv 1582558359788000000 true).decodeString h.v1 = (sig, none) ∧
        (sampleAuthEnv 1582558359788000000 true).verify pk
          ((sampleAuthEnv 1582558359788000000 true).postURI ++ ['.'] ++ h.s ++ ['.'] ++ h.f ++
            ['.'] ++ h.t) sig = true ∧
        ParseInt h.t = (i, none) ∧
        isStale i (sampleAuthEnv 1582558359788000000 true).now = false) ∧
    Authenticate (sampleAuthEnv 1582558359788000000 false) sampleHeader ≠ .ret none :=
  ⟨by decide,
   (Authenticate_gate (sampleAuthEnv 1582558359788000000 true) sampleHeader).1 (by decide),
   (Authenticate_gate (sampleAuthEnv 1582558359788000000 false) sampleHeader).2.2
     (fun _ _ _ => rfl)⟩

/-- The freshness boundary of `Authenticate` where the conversion to nanoseconds
does not overflow.  For a well-formed header whose signature verifies and whose
timestamp `i` (epoch milliseconds) has `i * 10^6` inside the `int64` range, that is
an instant between the years 1678 and 2262: when the clock reads exactly 300000 ms
after `i` the header is accepted, and when it reads 300001 ms after `i` the header
is rejected with `signature is not recent`. -/
theorem freshness_boundary (env : AuthEnv) (header : GoString) (h : Header)
    (pk sig : Bytes) (i : Int)
    (hp : parseHeader header = (h, none))
    (hne : ¬ (h.t = [] ∨ h.s = [] ∨ h.f = [] ∨ h.v1 = []))
    (hpk : env.decodeString env.publicKey = (pk, none)) (hlen : pk.length = 32)
    (hsig : env.decodeString h.v1 = (sig, none))
    (hver : env.verify pk (env.postURI ++ ['.'] ++ h.s ++ ['.'] ++ h.f ++ ['.'] ++ h.t) sig = true)
    (hint : ParseInt h.t = (i, none))
    (hfit : -2 ^ 63 ≤ i * 1000000 ∧ i * 1000000 < 2 ^ 63) :
    Authenticate { env with now := (i + 300000) * 1000000 } header = .ret none ∧
    Authenticate { env with now := (i + 300001) * 1000000 } header =
      .ret (some errNotRecent) := by
  have hver' : env.verify pk (baseString env.postURI h.s h.f h.t) sig = true := by
    simpa [baseString] using hver
  have h1 : isStale i ((i + 300000) * 1000000) = false := by
    rw [Bool.eq_false_iff, Ne, isStale_of_fits i _ hfit]
    exact lt_irrefl _
  have h2 : isStale i ((i + 300001) * 1000000) = true := by
    rw [isStale_of_fits i _ hfit]
    linarith
  constructor
  · simp [Authenticate, hp, hne, hpk, hsig, hlen, hver', hint, h1]
  · simp [Authenticate, hp, hne, hpk, hsig, hlen, hver', hint, h2]

theorem freshness_boundary_witness :
    Authenticate (sampleAuthEnv ((1582558358788 + 300000) * 1000000) true) sampleHeader =
      .ret none ∧
    Authenticate (sampleAuthEnv ((1582558358788 + 300001) * 1000000) true) sampleHeader =
      .ret (some errNotRecent) :=
  freshness_boundary (sampleAuthEnv 0 true) sampleHeader
    ⟨"1582558358788".toList, "5e53ec96b10ee1010e00380b".toList,
      "5e4b8e3d1f61f00036c9937d".toList, "c2ln".toList⟩
    (List.replicate 32 0) (List.replicate 32 0) 1582558358788
    (by decide) (by decide) rfl (by decide) rfl rfl (by decide) (by decide)

/-- C3 fails on the code through the `int64` product `i * 1000000`, the defect of
C4.  With a signature that verifies: the timestamp 9223372036855 ms is rejected
as not recent by a clock that reads exactly 300000 ms later, because its
nanosecond count wraps around to the year 1677; and the timestamp
-9223372036855 ms is accepted by a clock that reads 300001 ms later, because its
nanosecond count wraps around to the year 2262. -/
theorem freshness_boundary_overflows :
    ParseInt "9223372036855".toList = (9223372036855, none) ∧
    Authenticate (sampleAuthEnv ((9223372036855 + 300000) * 1000000) true)
      "t=9223372036855,s=5e53ec96b10ee1010e00380b,f=5e4b8e3d1f61f00036c9937d,v1=c2ln".toList =
      .ret (some errNotRecent) ∧
    ParseInt "-9223372036855".toList = (-9223372036855, none) ∧
    Authenticate (sampleAuthEnv ((-9223372036855 + 300001) * 1000000) true)
      "t=-9223372036855,s=5e53ec96b10ee1010e00380b,f=5e4b8e3d1f61f00036c9937d,v1=c2ln".toList =
      .ret none := by
  decide

/-- C4 fails on the code through the `int64` product `i * 1000000`.  With the clock
in January 2027: the timestamp 9223372036855 ms (year 2262, far in the future)
is rejected as not recent, because its nanosecond count wraps around to the year
1677; and the timestamp -9223372036855 ms (year 1677, far in the past) is
accepted, because its nanosecond count wraps around to the year 2262. -/
theorem staleness_check_overflows :
    ParseInt "9223372036855".toList = (9223372036855, none) ∧
    ¬ ((9223372036855 + 300000) * 1000000 < sampleNow) ∧
    isStale 9223372036855 sampleNow = true ∧
    Authenticate (sampleAuthEnv sampleNow true)
      "t=9223372036855,s=5e53ec96b10ee1010e00380b,f=5e4b8e3d1f61f00036c9937d,v1=c2ln".toList =
      .ret (some errNotRecent) ∧
    ParseInt "-9223372036855".toList = (-9223372036855, none) ∧
    (-9223372036855 + 300000) * 1000000 < sampleNow ∧
    isStale (-9223372036855) sampleNow = false ∧
    Authenticate (sampleAuthEnv sampleNow true)
      "t=-9223372036855,s=5e53ec96b10ee1010e00380b,f=5e4b8e3d1f61f00036c9937d,v1=c2ln".toList =
      .ret none := by
  decide

/-! ## Properties of `Decrypt` and `DownloadAttachment` -/

/-- What `Decrypt` does once both splits have at least two parts. -/
theorem Decrypt_eq (env : CryptoEnv) (body : EncryptedBody) (a b n c : GoString)
    (rest rest' : List GoString)
    (h1 : split ';' body.Data.EncryptedContent = a :: b :: rest)
    (h2 : split ':' b = n :: c :: rest') :
    Decrypt env body =
      afterOpen env body
        (env.boxOpen (env.decodeString c).1 (copyInto 24 (env.decodeString n).1)
          (copyInto 32 (env.decodeString a).1)
          (copyInto 32 (env.decodeString env.secretKey).1)) := by
  simp only [Decrypt, index, h1, h2, afterOpen, List.get?]

theorem copyInto_short (n : Nat) (src : Bytes) (h : src.length < n) :
    copyInto n src = src ++ List.replicate (n - src.length) 0 := by
  simp [copyInto, List.take_of_length_le (Nat.le_of_lt h)]

theorem split_mem_sub (sep : Char) (s : GoString) :
    ∀ p ∈ split sep s, ∀ x ∈ p, x ∈ s := by
  induction s with
  | nil => simp [split]
  | cons c cs ih =>
    intro p hp x hx
    simp only [split] at hp
    split_ifs at hp with hc
    · rcases List.mem_cons.1 hp with rfl | h
      · simp at hx
      · exact List.mem_cons_of_mem _ (ih p h x hx)
    · cases hs : split sep cs with
      | nil => exact absurd hs (split_ne_nil sep cs)
      | cons q qs =>
        rw [hs] at hp ih
        rcases List.mem_cons.1 hp with rfl | h
        · rcases List.mem_cons.1 hx with h1 | h1
          · simp [h1]
          · exact List.mem_cons_of_mem _ (ih q (List.mem_cons_self _ _) x h1)
        · exact List.mem_cons_of_mem _ (ih p (List.mem_cons_of_mem _ h) x hx)

/-- C2: decryption is all-or-nothing.  When the call of `box.Open` made by
`Decrypt` (on the decoded ciphertext and the nonce and keys converted to fixed
size) reports failure, `Decrypt` returns a nil body and the error
`Failed to decrypt content`; when the call made by the decryption step of
`DownloadAttachment` reports failure, it returns nil bytes and the error
`decrypt attachment failed`.  With a `box.Open` that fails on every input neither
operation ever returns a non-nil result or a nil error. -/
theorem decryption_all_or_nothing (env : CryptoEnv) :
    (∀ (body : EncryptedBody) (a b n c : GoString) (rest rest' : List GoString),
      split ';' body.Data.EncryptedContent = a :: b :: rest →
      split ':' b = n :: c :: rest' →
      env.boxOpen (env.decodeString c).1 (copyInto 24 (env.decodeString n).1)
          (copyInto 32 (env.decodeString a).1)
          (copyInto 32 (env.decodeString env.secretKey).1) = none →
      Decrypt env body = .ret (none, some errDecryptContent)) ∧
    (∀ att : Attachment,
      env.boxOpen (env.decodeString att.EncryptedFile.Binary).1
          (copyInto 24 (env.decodeString att.EncryptedFile.Nonce).1)
          (copyInto 32 (env.decodeString att.EncryptedFile.SubmissionPublicKey).1)
          (copyInto 32 (env.decodeString env.secretKey).1) = none →
      decryptAttachment env att = (none, some errDecryptAttachment) ∧
      ∀ url body, env.httpGetBody url = .ok body → env.unmarshalAttachment body = .ok att →
        DownloadAttachment env url = (none, some errDecryptAttachment)) ∧
    ((∀ ct nonce pk sk, env.boxOpen ct nonce pk sk = none) →
      (∀ body r e, Decrypt env body = .ret (r, e) → r = none ∧ e ≠ none) ∧
      (∀ url, (DownloadAttachment env url).1 = none ∧ (DownloadAttachment env url).2 ≠ none)) := by
  refine ⟨?_, ?_, ?_⟩
  · intro body a b n c rest rest' h1 h2 hopen
    rw [Decrypt_eq env body a b n c rest rest' h1 h2, hopen]
    rfl
  · intro att hopen
    have hd : decryptAttachment env att = (none, some errDecryptAttachment) := by
      simp [decryptAttachment, hopen]
    refine ⟨hd, ?_⟩
    intro url body hget hun
    simp [DownloadAttachment, hget, hun, hd]
  · intro hall
    constructor
    · intro body r e hret
      unfold Decrypt at hret
      simp only [hall] at hret
      revert hret
      cases index (split ';' body.Data.EncryptedContent) 0 <;>
        cases index (split ';' body.Data.EncryptedContent) 1 <;> simp
      rename_i s0 s1
      cases index (split ':' s1) 0 <;> cases index (split ':' s1) 1 <;> simp
      rintro rfl rfl
      simp
    · intro url
      unfold DownloadAttachment
      cases env.httpGetBody url with
      | error err => simp
      | ok body =>
        cases hun : env.unmarshalAttachment body with
        | error err => simp [hun]
        | ok att => simp [hun, decryptAttachment, hall]

theorem decryption_all_or_nothing_witness :
    Decrypt (sampleCryptoEnv openNever) (sampleBody "a;n:c") =
      .ret (none, some errDecryptContent) ∧
    DownloadAttachment (sampleCryptoEnv openNever) "https://example.com/file".toList =
      (none, some errDecryptAttachment) :=
  ⟨(decryption_all_or_nothing (sampleCryptoEnv openNever)).1 (sampleBody "a;n:c")
      "a".toList "n:c".toList "n".toList "c".toList [] [] (by decide) (by decide) rfl,
   ((decryption_all_or_nothing (sampleCryptoEnv openNever)).2.1
      ⟨⟨"k".toList, "n".toList, "b".toList⟩⟩ rfl).2 _ [] rfl rfl⟩

/-- C8 fails on the code: `Decrypt` has no check on the number of parts.  With a
`box.Open` that succeeds, an `encryptedContent` whose split on `;` has three parts
and one whose second part splits on `:` into three parts are both decrypted
from the leading parts, and no error is returned.  (An `encryptedContent` with
no `;`, or with no `:` after the `;`, stops with an index-out-of-range panic.) -/
theorem Decrypt_has_no_part_count_check :
    (split ';' "a;n:c;d".toList).length = 3 ∧
    Decrypt (sampleCryptoEnv openAlways) (sampleBody "a;n:c;d") =
      .ret (some sampleDecrypted, none) ∧
    (split ':' "n:c:d".toList).length = 3 ∧
    Decrypt (sampleCryptoEnv openAlways) (sampleBody "a;n:c:d") =
      .ret (some sampleDecrypted, none) ∧
    (split ';' "anc".toList).length = 1 ∧
    Decrypt (sampleCryptoEnv openAlways) (sampleBody "anc") = .crash "index out of range" ∧
    (split ':' "nc".toList).length = 1 ∧
    Decrypt (sampleCryptoEnv openAlways) (sampleBody "a;nc") = .crash "index out of range" := by
  decide

/-- C8, amended: whenever the split of `encryptedContent` on `;` has at least two
parts `a`, `b` and the split of `b` on `:` has at least two parts `n`, `c`,
`Decrypt` ignores all further parts: it returns exactly what it returns on the
two-part envelope a + ";" + n + ":" + c, namely the outcome of `box.Open` on the
decoded `c`, `n`, `a` followed by JSON decoding, and never a parse error. -/
theorem Decrypt_uses_leading_parts (env : CryptoEnv) (body : EncryptedBody)
    (a b n c : GoString) (rest rest' : List GoString)
    (h1 : split ';' body.Data.EncryptedContent = a :: b :: rest)
    (h2 : split ':' b = n :: c :: rest') :
    Decrypt env body =
      Decrypt env ⟨{ body.Data with EncryptedContent := a ++ [';'] ++ n ++ [':'] ++ c }⟩ ∧
    Decrypt env body =
      afterOpen env body
        (env.boxOpen (env.decodeString c).1 (copyInto 24 (env.decodeString n).1)
          (copyInto 32 (env.decodeString a).1)
          (copyInto 32 (env.decodeString env.secretKey).1)) ∧
    ∃ r e, Decrypt env body = .ret (r, e) ∧
      (e = none ∨ e = some errDecryptContent ∨
        ∃ decBytes err, env.unmarshalFields decBytes = .error err ∧ e = some err) := by
  have hmem := split_not_mem ';' body.Data.EncryptedContent
  have hsub := split_mem_sub ':' b
  have hmem' := split_not_mem ':' b
  rw [h1] at hmem
  rw [h2] at hsub hmem'
  have ha : (';' : Char) ∉ a := hmem a (by simp)
  have hb : (';' : Char) ∉ b := hmem b (by simp)
  have hn : (':' : Char) ∉ n := hmem' n (by simp)
  have hc : (':' : Char) ∉ c := hmem' c (by simp)
  have hn' : (';' : Char) ∉ n := fun hx => hb (hsub n (by simp) _ hx)
  have hc' : (';' : Char) ∉ c := fun hx => hb (hsub c (by simp) _ hx)
  have e1 : split ';' (a ++ [';'] ++ n ++ [':'] ++ c) = [a, n ++ ':' :: c] := by
    have : a ++ [';'] ++ n ++ [':'] ++ c = a ++ ';' :: (n ++ ':' :: c) := by simp
    rw [this, split_append_sep ';' a _ ha, split_of_not_mem]
    intro hx
    rcases List.mem_append.1 hx with h | h
    · exact hn' h
    · rcases List.mem_cons.1 h with h | h
      · exact absurd h (by decide)
      · exact hc' h
  have e2 : split ':' (n ++ ':' :: c) = [n, c] := by
    rw [split_append_sep ':' n _ hn, split_of_not_mem ':' c hc]
  have hD := Decrypt_eq env body a b n c rest rest' h1 h2
  refine ⟨?_, hD, ?_⟩
  · rw [hD, Decrypt_eq env _ a (n ++ ':' :: c) n c [] [] e1 e2]
    rfl
  · rw [hD]
    unfold afterOpen
    cases env.boxOpen (env.decodeString c).1 (copyInto 24 (env.decodeString n).1)
          (copyInto 32 (env.decodeString a).1)
          (copyInto 32 (env.decodeString env.secretKey).1) with
    | none => exact ⟨_, _, rfl, Or.inr (Or.inl rfl)⟩
    | some decBytes =>
      cases hu : env.unmarshalFields decBytes with
      | error err =>
        exact ⟨none, some err, by simp only [hu], Or.inr (Or.inr ⟨decBytes, err, hu, rfl⟩)⟩
      | ok fields => exact ⟨_, none, by simp only [hu]; rfl, Or.inl rfl⟩

theorem Decrypt_uses_leading_parts_witness :
    Decrypt (sampleCryptoEnv openAlways) (sampleBody "a;n:c;d") =
      Decrypt (sampleCryptoEnv openAlways) (sampleBody "a;n:c") :=
  (Decrypt_uses_leading_parts (sampleCryptoEnv openAlways) (sampleBody "a;n:c;d")
    "a".toList "n:c".toList "n".toList "c".toList ["d".toList] [] (by decide) (by decide)).1

/-- C9 fails on the code: there is no size check.  In an environment where the
nonce `n` decodes to the single byte 1 and the public key `k` to a single byte, and
where `box.Open` succeeds only on the 24-byte nonce 1, 0, ..., 0, both `Decrypt` and
`DownloadAttachment` succeed: `box.Open` was called on the zero-padded nonce and
no size-mismatch error was returned. -/
theorem short_nonce_is_not_rejected :
    ((sampleCryptoEnv openPaddedNonce).decodeString "n".toList).1.length = 1 ∧
    ((sampleCryptoEnv openPaddedNonce).decodeString "k".toList).1.length = 1 ∧
    Decrypt (sampleCryptoEnv openPaddedNonce) (sampleBody "k;n:c") =
      .ret (some sampleDecrypted, none) ∧
    DownloadAttachment (sampleCryptoEnv openPaddedNonce) "https://example.com/file".toList =
      (some [104, 105], none) := by
  decide

/-- C9, amended: neither `Decrypt` nor the decryption step of `DownloadAttachment`
validates sizes.  A decoded nonce shorter than 24 bytes, or a decoded sender
public key or recipient private key shorter than 32 bytes, is extended with zero
bytes to the full size and `box.Open` is called on the extended value; what is
returned is decided by that call alone (and, for `Decrypt`, by JSON decoding):
for an attachment the error of a failed call, or the slice of a successful one
with a nil error. -/
theorem short_inputs_are_zero_padded (env : CryptoEnv) :
    (∀ (body : EncryptedBody) (a b n c : GoString) (rest rest' : List GoString),
      split ';' body.Data.EncryptedContent = a :: b :: rest →
      split ':' b = n :: c :: rest' →
      ((env.decodeString n).1.length < 24 →
        Decrypt env body = afterOpen env body
          (env.boxOpen (env.decodeString c).1
            ((env.decodeString n).1 ++ List.replicate (24 - (env.decodeString n).1.length) 0)
            (copyInto 32 (env.decodeString a).1)
            (copyInto 32 (env.decodeString env.secretKey).1))) ∧
      ((env.decodeString a).1.length < 32 →
        Decrypt env body = afterOpen env body
          (env.boxOpen (env.decodeString c).1 (copyInto 24 (env.decodeString n).1)
            ((env.decodeString a).1 ++ List.replicate (32 - (env.decodeString a).1.length) 0)
            (copyInto 32 (env.decodeString env.secretKey).1))) ∧
      ((env.decodeString env.secretKey).1.length < 32 →
        Decrypt env body = afterOpen env body
          (env.boxOpen (env.decodeString c).1 (copyInto 24 (env.decodeString n).1)
            (copyInto 32 (env.decodeString a).1)
            ((env.decodeString env.secretKey).1 ++
              List.replicate (32 - (env.decodeString env.secretKey).1.length) 0)))) ∧
    (∀ att : Attachment,
      ((env.decodeString att.EncryptedFile.Nonce).1.length < 24 →
        decryptAttachment env att =
          match env.boxOpen (env.decodeString att.EncryptedFile.Binary).1
            ((env.decodeString att.EncryptedFile.Nonce).1 ++
              List.replicate (24 - (env.decodeString att.EncryptedFile.Nonce).1.length) 0)
            (copyInto 32 (env.decodeString att.EncryptedFile.SubmissionPublicKey).1)
            (copyInto 32 (env.decodeString env.secretKey).1) with
          | none => (none, some errDecryptAttachment)
          | some decBytes => (appendToNil decBytes, none)) ∧
      ((env.decodeString att.EncryptedFile.SubmissionPublicKey).1.length < 32 →
        decryptAttachment env att =
          match env.boxOpen (env.decodeString att.EncryptedFile.Binary).1
            (copyInto 24 (env.decodeString att.EncryptedFile.Nonce).1)
            ((env.decodeString att.EncryptedFile.SubmissionPublicKey).1 ++ List.replicate
              (32 - (env.decodeString att.EncryptedFile.SubmissionPublicKey).1.length) 0)
            (copyInto 32 (env.decodeString env.secretKey).1) with
          | none => (none, some errDecryptAttachment)
          | some decBytes => (appendToNil decBytes, none)) ∧
      ((env.decodeString env.secretKey).1.length < 32 →
        decryptAttachment env att =
          match env.boxOpen (env.decodeString att.EncryptedFile.Binary).1
            (copyInto 24 (env.decodeString att.EncryptedFile.Nonce).1)
            (copyInto 32 (env.decodeString att.EncryptedFile.SubmissionPublicKey).1)
            ((env.decodeString env.secretKey).1 ++
              List.replicate (32 - (env.decodeString env.secretKey).1.length) 0) with
          | none => (none, some errDecryptAttachment)
          | some decBytes => (appendToNil decBytes, none))) := by
  constructor
  · intro body a b n c rest rest' h1 h2
    have hD := Decrypt_eq env body a b n c rest rest' h1 h2
    refine ⟨fun h => ?_, fun h => ?_, fun h => ?_⟩
    · rw [hD, copyInto_short 24 _ h]
    · rw [hD, copyInto_short 32 _ h]
    · rw [hD, copyInto_short 32 _ h]
  · intro att
    refine ⟨fun h => ?_, fun h => ?_, fun h => ?_⟩
    · simp only [decryptAttachment, copyInto_short 24 _ h]
    · simp only [decryptAttachment, copyInto_short 32 _ h]
    · simp only [decryptAttachment, copyInto_short 32 _ h]

theorem short_inputs_are_zero_padded_witness :
    ((sampleCryptoEnv openPaddedNonce).decodeString "n".toList).1.length < 24 ∧
    Decrypt (sampleCryptoEnv openPaddedNonce) (sampleBody "k;n:c") =
      afterOpen (sampleCryptoEnv openPaddedNonce) (sampleBody "k;n:c")
        (openPaddedNonce [1] (1 :: List.replicate 23 0) (copyInto 32 [1])
          (List.replicate 32 1)) ∧
    decryptAttachment (sampleCryptoEnv openPaddedNonce)
        ⟨⟨"k".toList, "n".toList, "b".toList⟩⟩ = (some [104, 105], none) :=
  ⟨by decide,
   ((short_inputs_are_zero_padded (sampleCryptoEnv openPaddedNonce)).1 (sampleBody "k;n:c")
     "k".toList "n:c".toList "n".toList "c".toList [] [] (by decide) (by decide)).1
     (by decide),
   (((short_inputs_are_zero_padded (sampleCryptoEnv openPaddedNonce)).2
     ⟨⟨"k".toList, "n".toList, "b".toList⟩⟩).1 (by decide)).trans (by decide)⟩

end FormSG
